import Mathlib

set_option autoImplicit false

/-!
# Verification of the MathFonts release script (`release.py`)

This file gives a shallow embedding in Lean 4 of the release orchestrator
`release.py` of the MathFonts repository, and proves (or refutes) the
testable properties stated in the repository's specification.

Modelling conventions:

* Python strings are modelled as Lean `String` / `List Char`; `bytes` values
  (which appear because the dry-run stub of `run_command` returns
  `stdout=b''` while real runs use `text=True` and return `str`) are kept
  apart from `str` values through the `PyVal` type, since `bytes.lstrip`
  applied to a `str` argument raises `TypeError` in Python.
* Side effects (log lines, subprocess executions, file writes/deletes, HTTP
  requests) are recorded in an explicit event trace.  Timestamps and the
  `[DRY-RUN]` log prefix are not part of the model.
* `sys.exit(1)` raises `SystemExit`, which is *not* caught by
  `except Exception` but does run `finally` blocks; Python exceptions that
  are `Exception` subclasses (`TypeError`, `ValueError`, network errors)
  are caught by the `except Exception` handler of `release`.  Both are
  modelled by the `Halt` type.
* File sizes are exact byte counts.  The script computes sizes in MB as
  `size_bytes / (1024*1024)` in IEEE-754 doubles; such values (dyadic
  rationals with numerators far below 2^53) and their running sums are
  exact in doubles, so the model works with exact values, representing a
  size reported as `round(x, 2)` by the integer number of hundredths of a
  MB, with round-half-to-even tie-breaking exactly as Python's `round`.
-/

/-! ## Characters and digit strings -/

/-- Decimal digit characters, as used by Python's `f'{n}'` formatting. -/
def digitChar : Nat → Char
  | 0 => '0' | 1 => '1' | 2 => '2' | 3 => '3' | 4 => '4'
  | 5 => '5' | 6 => '6' | 7 => '7' | 8 => '8' | 9 => '9'
  | _ => '*'

/-- Is `c` an ASCII decimal digit (`str.isdigit` on ASCII input)? -/
def isDig (c : Char) : Bool := 48 ≤ c.toNat && c.toNat ≤ 57

/-- Numeric value of a digit string (most significant digit first). -/
def digitsVal (l : List Char) : Nat := l.foldl (fun acc c => 10 * acc + (c.toNat - 48)) 0

/-- Fuel-driven decimal rendering of a natural number; `fuel` bounds the
number of digits produced.  Structural in `fuel` so that concrete values
reduce definitionally. -/
def natDigitsAux : Nat → Nat → List Char
  | 0, _ => []
  | fuel + 1, n => if n < 10 then [digitChar n] else natDigitsAux fuel (n / 10) ++ [digitChar (n % 10)]

/-- Decimal rendering of a natural number, as Python's `str(n)` / `f'{n}'`. -/
def natDigits (n : Nat) : List Char := natDigitsAux (n + 1) n

/-- Decimal rendering as a `String`. -/
def natStr (n : Nat) : String := String.mk (natDigits n)

/-- Python rendering of an `int` inside an f-string. -/
def intRepr (i : Int) : List Char :=
  if i < 0 then '-' :: natDigits i.natAbs else natDigits i.toNat

/-- Python's `s.split('.')`: splits on every dot, keeping empty fields, and
yields `['']` on the empty string. -/
def pySplitDot : List Char → List (List Char)
  | [] => [[]]
  | c :: rest =>
    if c = '.' then [] :: pySplitDot rest
    else
      match pySplitDot rest with
      | [] => [[c]]
      | t :: ts => (c :: t) :: ts

/-- ASCII whitespace recognised by Python's `str.strip()` (the Unicode
whitespace beyond ASCII is not exercised here). -/
def isSpaceCh (c : Char) : Bool :=
  c == ' ' || c == '\t' || c == '\n' || c == '\r' || c == '\x0b' || c == '\x0c'

/-- Python's `str.strip()` on a character list. -/
def pyTrim (l : List Char) : List Char :=
  ((l.dropWhile isSpaceCh).reverse.dropWhile isSpaceCh).reverse

/-- All-digit test for a nonempty character list. -/
def readDigits (l : List Char) : Option Nat :=
  if l ≠ [] ∧ l.all isDig then some (digitsVal l) else none

/-- Python's `int(s)` for a decimal string: surrounding whitespace is
stripped, an optional sign is allowed, and the remainder must be a nonempty
digit string.  (Python additionally allows grouping underscores between
digits; no claim here exercises them.)  Returns `none` where `int` raises
`ValueError`. -/
def pyInt (s : List Char) : Option Int :=
  match pyTrim s with
  | [] => none
  | c :: r =>
    if c == '+' then (readDigits r).map Int.ofNat
    else if c == '-' then (readDigits r).map (fun n => -(n : Int))
    else (readDigits (c :: r)).map Int.ofNat

/-- ASCII lowercasing of one character, as `str.lower()` acts on ASCII.
(Non-ASCII letters are left unchanged; no non-ASCII character lowercases
into the ASCII letters of `'math'`.) -/
def toLowerChar (c : Char) : Char :=
  if 65 ≤ c.toNat ∧ c.toNat ≤ 90 then Char.ofNat (c.toNat + 32) else c

/-- `str.lower()` on a character list. -/
def toLowerList (l : List Char) : List Char := l.map toLowerChar

/-- Boolean list-prefix test. -/
def isPrefixB : List Char → List Char → Bool
  | [], _ => true
  | _ :: _, [] => false
  | a :: as, b :: bs => (a == b) && isPrefixB as bs

/-- Python's substring containment `needle in hay` (contiguous substring). -/
def isSubstrB (needle : List Char) : List Char → Bool
  | [] => needle.isEmpty
  | c :: rest => isPrefixB needle (c :: rest) || isSubstrB needle rest

/-- Suffix test on strings, used to model `Path.glob('*.woff2')` (the glob
pattern `*.woff2` matches exactly the entry names ending in `.woff2`). -/
def endsWithB (s suffx : String) : Bool :=
  isPrefixB suffx.data.reverse s.data.reverse

/-- Does the string avoid the path separator `'/'`?  Names of real
directory entries always do. -/
def slashFreeStr (s : String) : Bool := s.data.all (fun c => !(c == '/'))

/-- Boolean membership in a list of strings. -/
def memStr (s : String) : List String → Bool
  | [] => false
  | t :: r => (t == s) || memStr s r

/-! ## Python runtime values and halting modes -/

/-- A Python value flowing through `run_command`'s stdout: either a `str`
(real run, `text=True`) or a `bytes` (the dry-run stub's `b''`). -/
inductive PyVal where
  | str (s : String)
  | bytes (b : String)
deriving DecidableEq

/-- Python exceptions raised by the modelled code that are `Exception`
subclasses (hence caught by `except Exception`). -/
inductive PyExc where
  /-- `TypeError: a bytes-like object is required, not 'str'` from
  `bytes.lstrip('v')`. -/
  | typeError
  /-- `ValueError` from `int()` on a non-numeric field. -/
  | valueError
  /-- A network-level error raised by `requests.post`. -/
  | requestError
deriving DecidableEq

/-- Message text of `str(e)` as interpolated into the failure log. -/
def excMsg : PyExc → String
  | .typeError => "a bytes-like object is required, not 'str'"
  | .valueError => "invalid literal for int() with base 10"
  | .requestError => "network error"

/-- How a modelled computation stops abnormally: `exit c` is
`sys.exit(c)` (`SystemExit`, not caught by `except Exception`), `exc e` is
a raised `Exception`. -/
inductive Halt where
  | exit (code : Nat)
  | exc (e : PyExc)
deriving DecidableEq

/-! ## Version handling (`get_current_version` / `increment_version`) -/

/-- `version.lstrip('v')`: removes *all* leading `'v'` characters. -/
def lstripV (l : List Char) : List Char := l.dropWhile (fun c => c == 'v')

/-- `MathFontsReleaser.increment_version`, translated from
`release.py:73-94`.  The argument is the `PyVal` produced by
`get_current_version` (a `bytes` in dry-run mode); `bytes.lstrip('v')`
raises `TypeError`.  After removing the `'v'` prefix the string is split on
dots; any number of fields other than three yields `'v1.0.0'`; with three
fields, `map(int, parts)` raises `ValueError` if a field is not an integer;
otherwise the requested component is bumped and lower components reset. -/
def increment_version (version : PyVal) (increment_type : String) : Except PyExc String :=
  match version with
  | .bytes _ => .error .typeError
  | .str s =>
    match pySplitDot (lstripV s.data) with
    | [p1, p2, p3] =>
      match pyInt p1, pyInt p2, pyInt p3 with
      | some major, some minor, some patch =>
        let (a, b, c) : Int × Int × Int :=
          if increment_type == "major" then (major + 1, 0, 0)
          else if increment_type == "minor" then (major, minor + 1, 0)
          else (major, minor, patch + 1)
        .ok (String.mk ('v' :: intRepr a ++ '.' :: intRepr b ++ '.' :: intRepr c))
      | _, _, _ => .error .valueError
    | _ => .ok "v1.0.0"

/-- Canonical serialization `f'v{x}.{y}.{z}'` of a well-formed version. -/
def verStr (x y z : Nat) : String :=
  String.mk ('v' :: natDigits x ++ '.' :: natDigits y ++ '.' :: natDigits z)

/-! ## Filesystem snapshots -/

/-- A directory entry of the build-output (`dist/`) tree: a regular file
with its byte size, or a subdirectory with its entries (in the order the
OS yields them to `os.walk` / `os.listdir` / `Path.iterdir`). -/
inductive FSNode where
  | file (name : String) (size : Nat)
  | dir (name : String) (children : List FSNode)

/-- The entry name of a node. -/
def nodeName : FSNode → String
  | .file n _ => n
  | .dir n _ => n

/-- Well-formedness of a directory listing as a real filesystem provides
it: sibling names are pairwise distinct, recursively. -/
def wfList : List FSNode → Bool
  | [] => true
  | .file n _ :: cs => !memStr n (cs.map nodeName) && wfList cs
  | .dir n cs' :: cs => !memStr n (cs.map nodeName) && wfList cs' && wfList cs

/-- Are all names of a listing (one level) free of `'/'`? -/
def namesSF : List FSNode → Bool
  | [] => true
  | c :: cs => slashFreeStr (nodeName c) && namesSF cs

/-- Do the top-level directory names and their entry names avoid `'/'`
(true of every real directory)? -/
def slashFreeTop : List FSNode → Bool
  | [] => true
  | .file _ _ :: cs => slashFreeTop cs
  | .dir n cs' :: cs => slashFreeStr n && namesSF cs' && slashFreeTop cs

/-- Names (single-component relative paths) of the regular files of one
listing, in order — the `files` component of an `os.walk` triple. -/
def filesHere : List FSNode → List (List String)
  | [] => []
  | .file n _ :: cs => [n] :: filesHere cs
  | .dir _ _ :: cs => filesHere cs

/-- Relative paths (as component lists) contributed below the
subdirectories of a listing, in `os.walk` top-down order: each
subdirectory's subtree is emitted in full (its own files first) before the
next subdirectory. -/
def dirsWalk : List FSNode → List (List String)
  | [] => []
  | .file _ _ :: cs => dirsWalk cs
  | .dir n cs' :: cs => (filesHere cs' ++ dirsWalk cs').map (n :: ·) ++ dirsWalk cs

/-- All regular-file relative paths of a tree in `os.walk` top-down order,
as visited by the zip-writing loop of `create_archives`. -/
def walkFiles (cs : List FSNode) : List (List String) := filesHere cs ++ dirsWalk cs

/-- All regular-file relative paths of a tree in directory-listing order.
This is the specification-side reading of "every file present under the
build-output directory". -/
def relPaths : List FSNode → List (List String)
  | [] => []
  | .file n _ :: cs => [n] :: relPaths cs
  | .dir n cs' :: cs => (relPaths cs').map (n :: ·) ++ relPaths cs

/-- Members added by `tarfile.add(dir, arcname)` below a prefix: each
entry is added (directories with `isDir = true`), a directory recursively
adding its contents right after itself. -/
def tarAddList (pre : List String) : List FSNode → List (List String × Bool)
  | [] => []
  | .file n _ :: cs => (pre ++ [n], false) :: tarAddList pre cs
  | .dir n cs' :: cs =>
    (pre ++ [n], true) :: (tarAddList (pre ++ [n]) cs' ++ tarAddList pre cs)

/-! ## Archive member names (`create_archives`, `release.py:114-148`) -/

/-- The versioned root directory name `f"mathfonts-{version.lstrip('v')}"`
under which both archives place their members. -/
def rootName (version : String) : String :=
  "mathfonts-" ++ String.mk (lstripV version.data)

/-- Member names of the zip archive (as path-component lists: zipfile
joins the components with `'/'`, and entry names contain no `'/'`): one
member per regular file found by `os.walk(self.dist_dir)`, prefixed by the
versioned root. -/
def zipEntries (dist : List FSNode) (version : String) : List (List String) :=
  (walkFiles dist).map (fun p => rootName version :: p)

/-- Members of the tar.gz archive produced by
`tf.add(self.dist_dir, arcname=f"mathfonts-{version_clean}")`: the root
directory itself and, recursively, every entry below it (directories
flagged `true`). -/
def tarMembers (dist : List FSNode) (version : String) : List (List String × Bool) :=
  ([rootName version], true) :: tarAddList [rootName version] dist

/-- The regular-file members of the tar.gz archive. -/
def tarFilePaths (dist : List FSNode) (version : String) : List (List String) :=
  (tarMembers dist version).filterMap (fun m => if m.2 then none else some m.1)

/-! ## Rounded sizes (`get_font_summary`, `release.py:150-192`) -/

/-- Round `n / d` (`d > 0`) to the nearest integer, ties to even —
Python's `round` on an exactly-represented value. -/
def roundHalfEvenDiv (n d : Nat) : Nat :=
  let q := n / d
  let r := n % d
  if 2 * r < d then q
  else if d < 2 * r then q + 1
  else if q % 2 = 0 then q else q + 1

/-- `round(size_bytes / (1024*1024), 2)`, represented exactly as a count
of hundredths of a MB.  The doubles involved (dyadic rationals with small
numerators) and their running sums are exact, so this is the value Python
reports, scaled by 100. -/
def round2cents (bytes : Nat) : Nat := roundHalfEvenDiv (bytes * 100) (1024 * 1024)

/-- One font entry of the summary: file name and reported (rounded) size. -/
structure FontInfo where
  name : String
  size_cents : Nat
deriving DecidableEq

/-- One family entry of the summary. -/
structure FamilyInfo where
  name : String
  fonts : List FontInfo
  size_cents : Nat
deriving DecidableEq

/-- The summary dictionary built by `get_font_summary` (sizes as
hundredths of MB, see `round2cents`). -/
structure Summary where
  total_fonts : Nat
  total_size_cents : Nat
  font_families : List FamilyInfo
  math_fonts : List String
deriving DecidableEq

/-- The `.woff2` entries of a family directory, in listing order, as
selected by `family_dir.glob('*.woff2')`. -/
def woff2Files : List FSNode → List (String × Nat)
  | [] => []
  | .file n s :: cs => if endsWithB n ".woff2" then (n, s) :: woff2Files cs else woff2Files cs
  | .dir _ _ :: cs => woff2Files cs

/-- Is the font classified as a math font by the source's test
`'math' in font_file.name.lower()`? -/
def hasMath (name : String) : Bool := isSubstrB "math".data (toLowerList name.data)

/-- State of the inner per-family loop: fonts listed so far, unrounded
accumulated family byte count, math-font names collected so far. -/
def fontStep (famName : String) (acc : List FontInfo × Nat × List String)
    (f : String × Nat) : List FontInfo × Nat × List String :=
  (acc.1 ++ [⟨f.1, round2cents f.2⟩], acc.2.1 + f.2,
   acc.2.2 ++ (if hasMath f.1 then [famName ++ "/" ++ f.1] else []))

/-- Accumulator of the outer loop over `self.dist_dir.iterdir()`. -/
structure SumAcc where
  total_fonts : Nat
  total_bytes : Nat
  families : List FamilyInfo
  maths : List String

/-- One iteration of the outer loop: files at the top level are skipped
(`if not family_dir.is_dir(): continue`); for a directory, the inner loop
runs over its `.woff2` files, the family record (with its size rounded) is
appended, and the totals grow by the family's contributions. -/
def sumStep (acc : SumAcc) : FSNode → SumAcc
  | .file _ _ => acc
  | .dir nm cs =>
    let fs := woff2Files cs
    let r := fs.foldl (fontStep nm) ([], 0, [])
    { total_fonts := acc.total_fonts + fs.length
      total_bytes := acc.total_bytes + r.2.1
      families := acc.families ++ [⟨nm, r.1, round2cents r.2.1⟩]
      maths := acc.maths ++ r.2.2 }

/-- `MathFontsReleaser.get_font_summary` on an existing `dist/` directory
(`release.py:152-153` returns an empty dictionary when the directory is
missing; the claims below concern existing snapshots). -/
def get_font_summary (dist : List FSNode) : Summary :=
  let a := dist.foldl sumStep ⟨0, 0, [], []⟩
  ⟨a.total_fonts, round2cents a.total_bytes, a.families, a.maths⟩

/-! ## The environment and the event trace -/

/-- The responses of the external world (git, make, filesystem, GitHub
API) for one run.  `describeRc`/`describeOut` are the exit code and stdout
of `git describe --tags --abbrev=0` (a repository with no reachable tag
gives a nonzero exit code); `uploadStatus` maps an asset name to the HTTP
status of its upload. -/
structure Env where
  dryRun : Bool
  githubToken : Option String
  describeRc : Nat
  describeOut : String
  makefileExists : Bool
  cleanRc : Nat
  buildRc : Nat
  distExists : Bool
  dist : List FSNode
  createRaises : Bool
  createStatus : Nat
  uploadStatus : String → Nat
  tagRc : Nat
  pushRc : Nat

/-- Observable effects of a run, in order of occurrence. -/
inductive Event where
  /-- A `self.log(message, level)` line (timestamp elided). -/
  | log (level : String) (msg : String)
  /-- An actual subprocess execution (`subprocess.run`); absent in dry-run. -/
  | execCmd (cmd : List String)
  /-- `zip_path.parent.mkdir(exist_ok=True)` (performed even in dry-run). -/
  | mkdirP (path : String)
  /-- Writing the zip archive with the given members. -/
  | writeZip (path : String) (entries : List (List String))
  /-- Writing the tar.gz archive with the given members. -/
  | writeTar (path : String) (entries : List (List String × Bool))
  /-- The `requests.post` creating the release, with its tag name and title. -/
  | httpCreateRelease (tagName : String) (title : String)
  /-- The `requests.post` uploading one asset, with the asset name. -/
  | httpUploadAsset (name : String)
  /-- `archive_path.unlink()`. -/
  | deleteFile (path : String)
deriving DecidableEq

/-- Joining a command list with spaces, as `' '.join(cmd)`. -/
def joinSpace : List String → String
  | [] => ""
  | [c] => c
  | c :: r => c ++ " " ++ joinSpace r

/-- The basename of a path (`Path.name`). -/
def basename (p : String) : String :=
  String.mk ((p.data.reverse.takeWhile (fun c => !(c == '/'))).reverse)

/-- The parent directory of a path (`Path.parent`), used only to record
the `mkdir` target. -/
def dirname (p : String) : String :=
  String.mk (((p.data.reverse.dropWhile (fun c => !(c == '/'))).drop 1).reverse)

/-- `MathFontsReleaser.run_command` (`release.py:50-63`): logs the command;
in dry-run returns a stub `CompletedProcess` with `stdout=b''` (note: a
`bytes`, although real runs use `text=True`); otherwise executes the
command and, on a nonzero exit code, logs two errors and calls
`sys.exit(1)`.  `rc`/`out` are the environment's response for this
command.  (The stderr text of the second error log is not modelled.) -/
def run_command (e : Env) (cmd : List String) (rc : Nat) (out : String) :
    Except Halt PyVal × List Event :=
  let evLog := Event.log "INFO" ("Running: " ++ joinSpace cmd)
  if e.dryRun then (.ok (.bytes ""), [evLog])
  else if rc ≠ 0 then
    (.error (.exit 1),
     [evLog, .execCmd cmd,
      .log "ERROR" ("Command failed: " ++ joinSpace cmd),
      .log "ERROR" "Error output: "])
  else (.ok (.str out), [evLog, .execCmd cmd])

/-- `.strip()` on the stdout value (on `bytes` it is `b''.strip() = b''`). -/
def stripVal : PyVal → PyVal
  | .str s => .str (String.mk (pyTrim s.data))
  | .bytes b => .bytes b

/-- `MathFontsReleaser.get_current_version` (`release.py:65-71`).  The
`except subprocess.CalledProcessError: return 'v0.0.0'` branch is dead
code: `subprocess.run` is called without `check=True`, so it never raises
`CalledProcessError`; a failing `git describe` instead makes `run_command`
call `sys.exit(1)`. -/
def get_current_version (e : Env) : Except Halt PyVal × List Event :=
  let r := run_command e ["git", "describe", "--tags", "--abbrev=0"] e.describeRc e.describeOut
  match r.1 with
  | .error h => (.error h, r.2)
  | .ok v => (.ok (stripVal v), r.2)

/-- `MathFontsReleaser.build_fonts` (`release.py:96-112`). -/
def build_fonts (e : Env) : Except Halt Unit × List Event :=
  let ev0 := Event.log "INFO" "Building fonts..."
  if !e.makefileExists then
    (.error (.exit 1), [ev0, .log "ERROR" "Makefile not found"])
  else
    let r1 := run_command e ["make", "clean"] e.cleanRc ""
    match r1.1 with
    | .error h => (.error h, ev0 :: r1.2)
    | .ok _ =>
      let r2 := run_command e ["make", "all-parallel"] e.buildRc ""
      match r2.1 with
      | .error h => (.error h, ev0 :: (r1.2 ++ r2.2))
      | .ok _ =>
        if !e.distExists then
          (.error (.exit 1),
           ev0 :: (r1.2 ++ r2.2 ++ [.log "ERROR" "dist/ directory not created after build"]))
        else
          (.ok (), ev0 :: (r1.2 ++ r2.2 ++ [.log "INFO" "Font build completed successfully"]))

/-- The archive paths dictionary (`{'zip': ..., 'tar.gz': ...}`); the
`base_dir` prefix is elided, paths are relative to the repository root. -/
structure Archives where
  zipPath : String
  tarPath : String
deriving DecidableEq

/-- `MathFontsReleaser.create_archives` (`release.py:114-148`): logs, makes
the `tmp` directory (even in dry-run), writes the two archives unless in
dry-run, and returns the paths dictionary. -/
def create_archives (e : Env) (version : String) : Archives × List Event :=
  let vc := String.mk (lstripV version.data)
  let zipPath := "tmp/mathfonts-" ++ vc ++ ".zip"
  let tarPath := "tmp/mathfonts-" ++ vc ++ ".tar.gz"
  let evs :=
    [Event.log "INFO" ("Creating archives for version " ++ version),
     Event.mkdirP (dirname zipPath)] ++
    (if e.dryRun then [] else [Event.writeZip zipPath (zipEntries e.dist version)]) ++
    [Event.log "INFO" ("Created ZIP archive: " ++ zipPath)] ++
    (if e.dryRun then [] else [Event.writeTar tarPath (tarMembers e.dist version)]) ++
    [Event.log "INFO" ("Created TAR.GZ archive: " ++ tarPath)]
  (⟨zipPath, tarPath⟩, evs)

/-- `MathFontsReleaser.upload_release_asset` (`release.py:284-302`): logs,
posts the asset, and logs an error (non-fatally) on a non-201 status. -/
def upload_release_asset (e : Env) (assetName : String) : List Event :=
  [Event.log "INFO" ("Uploading " ++ assetName), Event.httpUploadAsset assetName] ++
  (if e.uploadStatus assetName ≠ 201 then
    [Event.log "ERROR" ("Failed to upload " ++ assetName ++ ": " ++ natStr (e.uploadStatus assetName)),
     Event.log "ERROR" "Error output: "]
   else [Event.log "INFO" ("Successfully uploaded " ++ assetName)])

/-- `MathFontsReleaser.create_github_release` (`release.py:236-282`):
returns `False` without a token; otherwise reads the previous version via
`get_current_version` (which can `sys.exit`), generates the notes (pure,
not observed here), logs, and — unless in dry-run, which returns `True`
before any network call — posts the create request (tag name `version`,
title `f'MathFonts {version}'`), failing (`False`) on a non-201 status and
otherwise uploading every archive and returning `True`. -/
def create_github_release (e : Env) (version : String) (archives : Archives) :
    Except Halt Bool × List Event :=
  match e.githubToken with
  | none => (.ok false, [.log "ERROR" "GitHub token required for release creation"])
  | some _ =>
    let rPrev := get_current_version e
    match rPrev.1 with
    | .error h => (.error h, rPrev.2)
    | .ok _prev =>
      let evC := Event.log "INFO" ("Creating GitHub release " ++ version)
      if e.dryRun then
        (.ok true,
         rPrev.2 ++ [evC, .log "INFO" "Would create release with data:", .log "INFO" "<release json>"])
      else
        let evPost := Event.httpCreateRelease version ("MathFonts " ++ version)
        if e.createRaises then
          (.error (.exc .requestError), rPrev.2 ++ [evC, evPost])
        else if e.createStatus ≠ 201 then
          (.ok false,
           rPrev.2 ++ [evC, evPost,
            .log "ERROR" ("Failed to create release: " ++ natStr e.createStatus),
            .log "ERROR" "Error output: "])
        else
          (.ok true,
           rPrev.2 ++ [evC, evPost] ++
           upload_release_asset e (basename archives.zipPath) ++
           upload_release_asset e (basename archives.tarPath) ++
           [.log "INFO" "Successfully created release: <html url>"])

/-- `MathFontsReleaser.create_git_tag` (`release.py:304-308`). -/
def create_git_tag (e : Env) (version : String) : Except Halt Unit × List Event :=
  let ev0 := Event.log "INFO" ("Creating git tag " ++ version)
  let r1 := run_command e ["git", "tag", "-a", version, "-m", "Release " ++ version] e.tagRc ""
  match r1.1 with
  | .error h => (.error h, ev0 :: r1.2)
  | .ok _ =>
    let r2 := run_command e ["git", "push", "origin", version] e.pushRc ""
    match r2.1 with
    | .error h => (.error h, ev0 :: (r1.2 ++ r2.2))
    | .ok _ => (.ok (), ev0 :: (r1.2 ++ r2.2))

/-- `MathFontsReleaser.cleanup_archives` (`release.py:310-315`): deletes
each archive if it exists and the run is not a dry-run.  In a non-dry run
both archives were just written, hence exist; in a dry run nothing was
written and the `not self.dry_run` guard suppresses deletion anyway. -/
def cleanup_archives (e : Env) (a : Archives) : List Event :=
  if e.dryRun then []
  else
    [.deleteFile a.zipPath, .log "INFO" ("Cleaned up " ++ a.zipPath),
     .deleteFile a.tarPath, .log "INFO" ("Cleaned up " ++ a.tarPath)]

/-- Python falsiness of the optional version argument, as tested by
`if not version:` (`release.py:321`): both `None` and the empty string
are falsy. -/
def versionFalsy : Option String → Bool
  | none => true
  | some s => s == ""

/-- The version-resolution step at the top of `release`
(`release.py:320-323`): when the supplied version is falsy (absent *or*
the empty string, per `if not version:`), the current version is read and
its patch component incremented (the default `increment_type`); otherwise
the supplied string is used verbatim. -/
def resolveVersion (e : Env) (v0 : Option String) : Except Halt String × List Event :=
  if versionFalsy v0 then
    let r := get_current_version e
    match r.1 with
    | .error h => (.error h, r.2)
    | .ok cur =>
      match increment_version cur "patch" with
      | .error ex => (.error (.exc ex), r.2)
      | .ok v => (.ok v, r.2)
  else
    (.ok (v0.getD ""), [])

/-- The body of the `try` block of `MathFontsReleaser.release`
(`release.py:319-343`), together with the value of the local variable
`archives` if it was assigned (Python's `'archives' in locals()`), which
the `finally` block inspects. -/
def releaseTry (e : Env) (v0 : Option String) :
    Except Halt Bool × Option Archives × List Event :=
  match resolveVersion e v0 with
  | (.error h, evs) => (.error h, none, evs)
  | (.ok version, evs0) =>
    let evs1 := evs0 ++ [Event.log "INFO" ("Creating release " ++ version)]
    match build_fonts e with
    | (.error h, evsB) => (.error h, none, evs1 ++ evsB)
    | (.ok _, evsB) =>
      let rA := create_archives e version
      let archives := rA.1
      let evs2 := evs1 ++ evsB ++ rA.2
      match create_github_release e version archives with
      | (.error h, evsC) => (.error h, some archives, evs2 ++ evsC)
      | (.ok success, evsC) =>
        let evs3 := evs2 ++ evsC
        if success then
          match create_git_tag e version with
          | (.error h, evsT) => (.error h, some archives, evs3 ++ evsT)
          | (.ok _, evsT) =>
            (.ok true, some archives,
             evs3 ++ evsT ++ [.log "INFO" ("Release " ++ version ++ " completed successfully!")])
        else
          (.ok false, some archives, evs3 ++ [.log "ERROR" "Release creation failed"])

/-- `MathFontsReleaser.release` (`release.py:317-353`): the `try` body,
then the `except Exception` handler (which logs and returns `False`;
`SystemExit` from `sys.exit` passes through it), then the `finally` block
running `cleanup_archives` whenever `archives` was assigned. -/
def release (e : Env) (v0 : Option String) : Except Halt Bool × List Event :=
  let t := releaseTry e v0
  let afterExc : Except Halt Bool × List Event :=
    match t.1 with
    | .error (.exc ex) =>
      (.ok false, t.2.2 ++ [.log "ERROR" ("Release failed: " ++ excMsg ex)])
    | r => (r, t.2.2)
  match t.2.1 with
  | none => afterExc
  | some a => (afterExc.1, afterExc.2 ++ cleanup_archives e a)

/-- The process exit code observed by the caller of `main`
(`release.py:356-367`): `sys.exit(0 if success else 1)`, with an inner
`sys.exit(code)` terminating the process with `code` directly.  (The
modelled exceptions are all caught inside `release`, so the `.exc` case is
unreachable; an uncaught exception would end the process with code 1.) -/
def run_exit_code : Except Halt Bool → Nat
  | .ok true => 0
  | .ok false => 1
  | .error (.exit c) => c
  | .error (.exc _) => 1

/-- Is the event an asset-upload HTTP request? -/
def Event.isUpload : Event → Bool
  | .httpUploadAsset _ => true
  | _ => false

/-- Is the event an actual execution of `git tag` or `git push`? -/
def Event.isTagPushExec : Event → Bool
  | .execCmd ("git" :: "tag" :: _) => true
  | .execCmd ("git" :: "push" :: _) => true
  | _ => false

/-- Is the event an actual subprocess execution? -/
def Event.isExec : Event → Bool
  | .execCmd _ => true
  | _ => false

/-- Is the event a network request? -/
def Event.isHttp : Event → Bool
  | .httpCreateRelease _ _ => true
  | .httpUploadAsset _ => true
  | _ => false

/-- Is the event the writing of an archive file? -/
def Event.isArchiveWrite : Event → Bool
  | .writeZip _ _ => true
  | .writeTar _ _ => true
  | _ => false

/-! ## Specification-side definitions and concrete scenarios -/

/-- No asset upload and no actual `git tag`/`git push` execution: the
effects that claim C3 asserts are absent after a failed release creation. -/
def noUploadNoTag (ev : Event) : Bool := !ev.isUpload && !ev.isTagPushExec

/-- No subprocess execution, no network request, no archive write: the
effects that dry-run mode must not perform. -/
def noEffects (ev : Event) : Bool := !ev.isExec && !ev.isHttp && !ev.isArchiveWrite

/-- Specification-side reading of "the file name contains the substring
`'math'` case-insensitively": some contiguous piece of the name lowercases
to `math`. -/
def containsMathCI (s : String) : Prop :=
  ∃ pre mid post, s.data = pre ++ mid ++ post ∧ toLowerList mid = "math".data

/-- Sum of the reported (rounded) per-family sizes of a summary. -/
def famSumCents (s : Summary) : Nat := (s.font_families.map (fun f => f.size_cents)).sum

/-- Sum of the reported (rounded) per-file sizes of a summary. -/
def fileSumCents (s : Summary) : Nat :=
  ((s.font_families.flatMap (fun f => f.fonts)).map (fun f => f.size_cents)).sum

/-- Unrounded byte count of one family directory's `.woff2` files. -/
def famBytes (cs : List FSNode) : Nat := ((woff2Files cs).map (fun f => f.2)).sum

/-- Unrounded total byte count summed over the family subdirectories of a
snapshot — the specification-side "sum of the per-file sizes". -/
def distWoffBytes : List FSNode → Nat
  | [] => 0
  | .file _ _ :: cs => distWoffBytes cs
  | .dir _ cs' :: cs => famBytes cs' + distWoffBytes cs

/-- Flat characterization of the math-font list of a snapshot (used to
relate the imperative accumulation to membership statements). -/
def mathList : List FSNode → List String
  | [] => []
  | .file _ _ :: cs => mathList cs
  | .dir nm cs' :: cs =>
    (woff2Files cs').filterMap
      (fun f => if hasMath f.1 then some (nm ++ "/" ++ f.1) else none) ++ mathList cs

/-- Flat characterization of the family records of a snapshot. -/
def famList : List FSNode → List FamilyInfo
  | [] => []
  | .file _ _ :: cs => famList cs
  | .dir nm cs' :: cs =>
    (⟨nm, ((woff2Files cs').foldl (fontStep nm) ([], 0, [])).1,
      round2cents (((woff2Files cs').foldl (fontStep nm) ([], 0, [])).2.1)⟩ : FamilyInfo)
      :: famList cs

/-- A repository state with no reachable tag (`git describe` exits 128)
in a real (non-dry) run; the other responses are immaterial on this path. -/
def envNoTag : Env :=
  { dryRun := false, githubToken := some "t", describeRc := 128, describeOut := "",
    makefileExists := true, cleanRc := 0, buildRc := 0, distExists := true, dist := [],
    createRaises := false, createStatus := 201, uploadStatus := fun _ => 201,
    tagRc := 0, pushRc := 0 }

/-- A dry run (`--dry-run` with no `--version`): every external response
is benign, yet the run fails while resolving the version. -/
def envDryAuto : Env :=
  { dryRun := true, githubToken := some "t", describeRc := 0, describeOut := "v1.2.3",
    makefileExists := true, cleanRc := 0, buildRc := 0, distExists := true, dist := [],
    createRaises := false, createStatus := 201, uploadStatus := fun _ => 201,
    tagRc := 0, pushRc := 0 }

/-- A fully successful real run except that the zip asset upload returns
HTTP 500. -/
def envUploadFail : Env :=
  { dryRun := false, githubToken := some "t", describeRc := 0, describeOut := "v1.2.3",
    makefileExists := true, cleanRc := 0, buildRc := 0, distExists := true,
    dist := [FSNode.dir "fam" [FSNode.file "a-math.woff2" 5243, FSNode.file "b.woff2" 5243]],
    createRaises := false, createStatus := 201,
    uploadStatus := fun n => if n == "mathfonts-1.2.3.zip" then 500 else 201,
    tagRc := 0, pushRc := 0 }

/-- A real run in which release creation succeeds but `git tag` fails,
raising `SystemExit` after the archives were created. -/
def envTagFail : Env :=
  { dryRun := false, githubToken := some "t", describeRc := 0, describeOut := "v1.2.3",
    makefileExists := true, cleanRc := 0, buildRc := 0, distExists := true,
    dist := [FSNode.dir "fam" [FSNode.file "a-math.woff2" 5243]],
    createRaises := false, createStatus := 201, uploadStatus := fun _ => 201,
    tagRc := 128, pushRc := 0 }

/-- A real run with no token configured. -/
def envNoToken : Env :=
  { dryRun := false, githubToken := none, describeRc := 0, describeOut := "v1.2.3",
    makefileExists := true, cleanRc := 0, buildRc := 0, distExists := true,
    dist := [FSNode.dir "fam" [FSNode.file "a-math.woff2" 5243]],
    createRaises := false, createStatus := 201, uploadStatus := fun _ => 201,
    tagRc := 0, pushRc := 0 }

/-- The two-file snapshot on which the rounded per-file sizes do not sum
to the rounded family/total size: each file is 5243 bytes
(5243/2^20 MB rounds to 0.01), two of them are 10486 bytes
(10486/2^20 MB also rounds to 0.01, not 0.02). -/
def distRounding : List FSNode :=
  [FSNode.dir "A" [FSNode.file "a.woff2" 5243, FSNode.file "b.woff2" 5243]]

/-- A small well-formed snapshot for archive-content checks. -/
def distSmall : List FSNode :=
  [FSNode.dir "fam" [FSNode.file "a-math.woff2" 100, FSNode.dir "sub" [FSNode.file "c.txt" 1]],
   FSNode.file "README.md" 5]

/-! ## Lemmas: digit strings and parsing -/

theorem digitChar_isDig (d : Nat) (h : d < 10) : isDig (digitChar d) = true := by
  interval_cases d <;> decide

theorem digitChar_toNat (d : Nat) (h : d < 10) : (digitChar d).toNat = 48 + d := by
  interval_cases d <;> decide

theorem digitsVal_append (l : List Char) (c : Char) :
    digitsVal (l ++ [c]) = 10 * digitsVal l + (c.toNat - 48) := by
  simp [digitsVal, List.foldl_append]

theorem natDigitsAux_spec (fuel : Nat) :
    ∀ n, n < fuel →
      natDigitsAux fuel n ≠ [] ∧ (∀ c ∈ natDigitsAux fuel n, isDig c = true) ∧
      digitsVal (natDigitsAux fuel n) = n := by
  induction fuel with
  | zero => intro n h; omega
  | succ fuel ih =>
    intro n _
    by_cases hn : n < 10
    · refine ⟨by simp [natDigitsAux, hn], ?_, ?_⟩
      · intro c hc
        simp [natDigitsAux, hn] at hc
        exact hc ▸ digitChar_isDig n hn
      · simp [natDigitsAux, hn, digitsVal, digitChar_toNat n hn]
    · have hdiv : n / 10 < n := Nat.div_lt_self (by omega) (by omega)
      have hfuel : n / 10 < fuel := by omega
      obtain ⟨h1, h2, h3⟩ := ih (n / 10) hfuel
      refine ⟨by simp [natDigitsAux, hn], ?_, ?_⟩
      · intro c hc
        simp only [natDigitsAux, if_neg hn, List.mem_append, List.mem_singleton] at hc
        rcases hc with hc | hc
        · exact h2 c hc
        · exact hc ▸ digitChar_isDig (n % 10) (Nat.mod_lt n (by omega))
      · have hm : n % 10 < 10 := Nat.mod_lt n (by omega)
        simp only [natDigitsAux, if_neg hn]
        rw [digitsVal_append, h3, digitChar_toNat (n % 10) hm]
        omega

theorem natDigits_ne_nil (n : Nat) : natDigits n ≠ [] :=
  (natDigitsAux_spec (n + 1) n (by omega)).1

theorem natDigits_all_digits (n : Nat) : ∀ c ∈ natDigits n, isDig c = true :=
  (natDigitsAux_spec (n + 1) n (by omega)).2.1

theorem digitsVal_natDigits (n : Nat) : digitsVal (natDigits n) = n :=
  (natDigitsAux_spec (n + 1) n (by omega)).2.2

theorem isDig_facts (c : Char) (h : isDig c = true) :
    c ≠ '.' ∧ c ≠ 'v' ∧ (c == '+') = false ∧ (c == '-') = false ∧ isSpaceCh c = false := by
  simp only [isDig, Bool.and_eq_true, decide_eq_true_eq] at h
  refine ⟨?_, ?_, ?_, ?_, ?_⟩
  · rintro rfl; revert h; decide
  · rintro rfl; revert h; decide
  · rw [beq_eq_false_iff_ne]; rintro rfl; revert h; decide
  · rw [beq_eq_false_iff_ne]; rintro rfl; revert h; decide
  · cases hsp : isSpaceCh c with
    | false => rfl
    | true =>
      exfalso
      simp only [isSpaceCh, Bool.or_eq_true, beq_iff_eq] at hsp
      rcases hsp with ((((rfl | rfl) | rfl) | rfl) | rfl) | rfl <;> exact absurd h (by decide)

theorem dropWhile_all_false {α : Type} (p : α → Bool) (l : List α)
    (h : ∀ c ∈ l, p c = false) : l.dropWhile p = l := by
  cases l with
  | nil => rfl
  | cons a l => simp [List.dropWhile_cons, h a (by simp)]

theorem pyTrim_of_digits (l : List Char) (h : ∀ c ∈ l, isDig c = true) : pyTrim l = l := by
  have hs : ∀ c ∈ l, isSpaceCh c = false := fun c hc => (isDig_facts c (h c hc)).2.2.2.2
  unfold pyTrim
  rw [dropWhile_all_false _ l hs, dropWhile_all_false _ l.reverse
    (fun c hc => hs c (List.mem_reverse.mp hc)), List.reverse_reverse]

theorem readDigits_natDigits (n : Nat) : readDigits (natDigits n) = some n := by
  have h1 := natDigits_ne_nil n
  have h2 := natDigits_all_digits n
  simp only [readDigits, List.all_eq_true, digitsVal_natDigits]
  rw [if_pos ⟨h1, h2⟩]

theorem pyInt_natDigits (n : Nat) : pyInt (natDigits n) = some (Int.ofNat n) := by
  have htrim := pyTrim_of_digits (natDigits n) (natDigits_all_digits n)
  rcases hnd : natDigits n with _ | ⟨c, r⟩
  · exact absurd hnd (natDigits_ne_nil n)
  · have hc : isDig c = true := natDigits_all_digits n c (by rw [hnd]; simp)
    obtain ⟨-, -, hplus, hminus, -⟩ := isDig_facts c hc
    have hrd : readDigits (c :: r) = some n := by rw [← hnd, readDigits_natDigits]
    rw [hnd] at htrim
    unfold pyInt
    rw [htrim]
    simp [hplus, hminus, hrd]

/-! ## Lemmas: splitting on dots -/

theorem pySplitDot_ne_nil (l : List Char) : pySplitDot l ≠ [] := by
  cases l with
  | nil => simp [pySplitDot]
  | cons c rest =>
    simp only [pySplitDot]
    split
    · simp
    · rcases h : pySplitDot rest with _ | ⟨t, ts⟩ <;> simp

theorem pySplitDot_no_dot (a : List Char) (h : '.' ∉ a) : pySplitDot a = [a] := by
  induction a with
  | nil => rfl
  | cons c rest ih =>
    have hc : ¬(c = '.') := fun hh => h (hh ▸ List.mem_cons_self c rest)
    have hrest : '.' ∉ rest := fun hh => h (List.mem_cons_of_mem c hh)
    simp only [pySplitDot, if_neg hc, ih hrest]

theorem pySplitDot_append (a r : List Char) (h : '.' ∉ a) :
    pySplitDot (a ++ '.' :: r) = a :: pySplitDot r := by
  induction a with
  | nil => simp [pySplitDot]
  | cons c rest ih =>
    have hc : ¬(c = '.') := fun hh => h (hh ▸ List.mem_cons_self c rest)
    have hrest : '.' ∉ rest := fun hh => h (List.mem_cons_of_mem c hh)
    simp only [List.cons_append, pySplitDot, if_neg hc, List.append_eq, ih hrest]

theorem natDigits_no_dot (n : Nat) : '.' ∉ natDigits n := fun h =>
  (isDig_facts '.' (natDigits_all_digits n '.' h)).1 rfl

/-! ## Lemmas: the canonical version string -/

theorem lstripV_cons_v (l : List Char) : lstripV ('v' :: l) = lstripV l := by
  simp [lstripV, List.dropWhile_cons]

theorem lstripV_digit_head (c : Char) (r : List Char) (h : isDig c = true) :
    lstripV (c :: r) = c :: r := by
  have hne : c ≠ 'v' := (isDig_facts c h).2.1
  simp [lstripV, List.dropWhile_cons, beq_eq_false_iff_ne.mpr hne]

theorem verStr_data (x y z : Nat) :
    (verStr x y z).data = 'v' :: (natDigits x ++ '.' :: (natDigits y ++ '.' :: natDigits z)) := by
  unfold verStr
  simp [List.cons_append, List.append_assoc]

theorem splitVer (x y z : Nat) :
    pySplitDot (lstripV (verStr x y z).data) = [natDigits x, natDigits y, natDigits z] := by
  rw [verStr_data, lstripV_cons_v]
  rcases hdx : natDigits x with _ | ⟨c, r⟩
  · exact absurd hdx (natDigits_ne_nil x)
  · have hc : isDig c = true := natDigits_all_digits x c (by rw [hdx]; simp)
    have hnd : ('.' : Char) ∉ c :: r := hdx ▸ natDigits_no_dot x
    rw [List.cons_append, lstripV_digit_head c _ hc, ← List.cons_append]
    rw [pySplitDot_append _ _ hnd, pySplitDot_append _ _ (natDigits_no_dot y),
        pySplitDot_no_dot _ (natDigits_no_dot z)]

theorem intRepr_ofNat (n : Nat) : intRepr (Int.ofNat n) = natDigits n := by
  have hnn : ¬(Int.ofNat n < 0) := by
    rw [Int.not_lt]
    exact Int.ofNat_zero_le n
  rw [intRepr, if_neg hnn]
  rfl

theorem intRepr_zero : intRepr 0 = natDigits 0 := rfl

theorem ofNat_succ_int (z : Nat) : (Int.ofNat z) + 1 = Int.ofNat (z + 1) := rfl

/-- Claim C2: for every well-formed version string `vX.Y.Z`,
`increment_version` bumps the requested component and resets the lower
ones: "patch" yields `vX.Y.(Z+1)`, "minor" yields `vX.(Y+1).0`, "major"
yields `v(X+1).0.0`. -/
theorem c2_increment_wellformed (x y z : Nat) :
    increment_version (.str (verStr x y z)) "patch" = .ok (verStr x y (z + 1)) ∧
    increment_version (.str (verStr x y z)) "minor" = .ok (verStr x (y + 1) 0) ∧
    increment_version (.str (verStr x y z)) "major" = .ok (verStr (x + 1) 0 0) := by
  have hsplit := splitVer x y z
  have hx := pyInt_natDigits x
  have hy := pyInt_natDigits y
  have hz := pyInt_natDigits z
  refine ⟨?_, ?_, ?_⟩
  · have h1 : (("patch" : String) == "major") = false := by decide
    have h2 : (("patch" : String) == "minor") = false := by decide
    simp only [increment_version, hsplit, hx, hy, hz, h1, h2, Bool.false_eq_true, if_false,
      ofNat_succ_int, intRepr_ofNat]
    rfl
  · have h1 : (("minor" : String) == "major") = false := by decide
    have h2 : (("minor" : String) == "minor") = true := by decide
    simp only [increment_version, hsplit, hx, hy, hz, h1, h2, Bool.false_eq_true, if_false,
      if_true, ofNat_succ_int, intRepr_ofNat, intRepr_zero]
    rfl
  · have h1 : (("major" : String) == "major") = true := by decide
    simp only [increment_version, hsplit, hx, hy, hz, h1, if_true,
      ofNat_succ_int, intRepr_ofNat, intRepr_zero]
    rfl

/-- Claim C1 (amended): `increment_version` yields `'v1.0.0'` exactly when
the prior version string, after stripping leading `'v'`s, does not split
into three dot-separated fields.  With exactly three fields of which one is
not an integer, it instead raises `ValueError`; and when no prior tag
exists (non-dry run, `git describe` exits nonzero), `run_command`
terminates the process with exit code 1, so no version is resolved at all
(the `'v0.0.0'` fallback of `get_current_version` is dead code). -/
theorem c1_amended_resolution :
    (∀ (s ty : String), (pySplitDot (lstripV s.data)).length ≠ 3 →
      increment_version (.str s) ty = .ok "v1.0.0") ∧
    (∀ (s : String) (p1 p2 p3 : List Char) (ty : String),
      pySplitDot (lstripV s.data) = [p1, p2, p3] →
      pyInt p1 = none ∨ pyInt p2 = none ∨ pyInt p3 = none →
      increment_version (.str s) ty = .error .valueError) ∧
    (∀ e : Env, e.dryRun = false → e.describeRc ≠ 0 →
      (release e none).1 = .error (.exit 1)) := by
  refine ⟨?_, ?_, ?_⟩
  · intro s ty h
    simp only [increment_version]
    split
    · rename_i p1 p2 p3 heq
      rw [heq] at h
      simp at h
    · rfl
  · intro s p1 p2 p3 ty hsplit hnone
    simp only [increment_version, hsplit]
    rcases h1 : pyInt p1 with _ | a
    · simp [h1]
    · rcases h2 : pyInt p2 with _ | b
      · simp [h1, h2]
      · rcases h3 : pyInt p3 with _ | c
        · simp [h1, h2, h3]
        · exfalso
          rcases hnone with h | h | h
          · rw [h1] at h; exact Option.noConfusion h
          · rw [h2] at h; exact Option.noConfusion h
          · rw [h3] at h; exact Option.noConfusion h
  · intro e hdry hrc
    simp only [release, releaseTry, resolveVersion, versionFalsy, get_current_version,
      run_command, hdry, Bool.false_eq_true, if_false, if_neg, hrc, ite_not, if_true]

theorem c1_amended_resolution_witness :
    increment_version (.str "v1.2") "patch" = .ok "v1.0.0" ∧
    increment_version (.str "v1.2.x") "patch" = .error .valueError ∧
    (release envNoTag none).1 = .error (.exit 1) :=
  ⟨c1_amended_resolution.1 "v1.2" "patch" (by decide),
   c1_amended_resolution.2.1 "v1.2.x" ['1'] ['2'] ['x'] "patch" (by decide) (.inr (.inr rfl)),
   c1_amended_resolution.2.2 envNoTag rfl (by decide)⟩

/-- Claim C1 is false as stated: `'v1.2.x'` is malformed (its three
dot-separated fields are not all integers) yet the resolution step raises
`ValueError` rather than yielding `'v1.0.0'`; and with no prior tag at all
(non-dry run) the process exits with code 1 instead of producing any
version. -/
theorem c1_counterexample :
    increment_version (.str "v1.2.x") "patch" = .error .valueError ∧
    increment_version (.str "v1.2.x") "patch" ≠ .ok "v1.0.0" ∧
    (release envNoTag none).1 = .error (.exit 1) := by
  refine ⟨rfl, ?_, rfl⟩
  intro h
  rw [show increment_version (.str "v1.2.x") "patch" = .error .valueError from rfl] at h
  exact Except.noConfusion h

/-! ## Lemmas: the font summary folds -/

theorem fontStep_fold (nm : String) (fs : List (String × Nat)) :
    ∀ l b m, (fs.foldl (fontStep nm) (l, b, m)).1 =
        l ++ fs.map (fun f => (⟨f.1, round2cents f.2⟩ : FontInfo)) ∧
      (fs.foldl (fontStep nm) (l, b, m)).2.1 = b + (fs.map (fun f => f.2)).sum ∧
      (fs.foldl (fontStep nm) (l, b, m)).2.2 =
        m ++ fs.filterMap (fun f => if hasMath f.1 then some (nm ++ "/" ++ f.1) else none) := by
  induction fs with
  | nil => intro l b m; simp
  | cons f fs ih =>
    intro l b m
    obtain ⟨i1, i2, i3⟩ := ih (l ++ [⟨f.1, round2cents f.2⟩]) (b + f.2)
      (m ++ (if hasMath f.1 then [nm ++ "/" ++ f.1] else []))
    refine ⟨?_, ?_, ?_⟩
    · rw [List.foldl_cons]
      show (fs.foldl (fontStep nm) (fontStep nm (l, b, m) f)).1 = _
      rw [show fontStep nm (l, b, m) f = (l ++ [⟨f.1, round2cents f.2⟩], b + f.2,
        m ++ (if hasMath f.1 then [nm ++ "/" ++ f.1] else [])) from rfl]
      rw [i1]
      simp
    · rw [List.foldl_cons]
      rw [show fontStep nm (l, b, m) f = (l ++ [⟨f.1, round2cents f.2⟩], b + f.2,
        m ++ (if hasMath f.1 then [nm ++ "/" ++ f.1] else [])) from rfl]
      rw [i2]
      simp [Nat.add_assoc]
    · rw [List.foldl_cons]
      rw [show fontStep nm (l, b, m) f = (l ++ [⟨f.1, round2cents f.2⟩], b + f.2,
        m ++ (if hasMath f.1 then [nm ++ "/" ++ f.1] else [])) from rfl]
      rw [i3]
      rcases hm : hasMath f.1 <;> simp [hm]

theorem sumStep_fold (cs : List FSNode) :
    ∀ a : SumAcc, (cs.foldl sumStep a).total_bytes = a.total_bytes + distWoffBytes cs ∧
      (cs.foldl sumStep a).maths = a.maths ++ mathList cs ∧
      (cs.foldl sumStep a).families = a.families ++ famList cs := by
  induction cs with
  | nil => intro a; simp [distWoffBytes, mathList, famList]
  | cons c cs ih =>
    intro a
    cases c with
    | file n s =>
      obtain ⟨i1, i2, i3⟩ := ih a
      refine ⟨?_, ?_, ?_⟩ <;>
        simp [List.foldl_cons, sumStep, i1, i2, i3, distWoffBytes, mathList, famList]
    | dir nm cs' =>
      obtain ⟨f1, f2, f3⟩ := fontStep_fold nm (woff2Files cs') [] 0 []
      obtain ⟨i1, i2, i3⟩ := ih (sumStep a (.dir nm cs'))
      refine ⟨?_, ?_, ?_⟩
      · rw [List.foldl_cons, i1]
        simp [sumStep, f2, distWoffBytes, famBytes, Nat.add_assoc]
      · rw [List.foldl_cons, i2]
        simp [sumStep, f3, mathList, List.append_assoc]
      · rw [List.foldl_cons, i3]
        simp [sumStep, f1, f2, famList, List.append_assoc]

theorem summary_total (dist : List FSNode) :
    (get_font_summary dist).total_size_cents = round2cents (distWoffBytes dist) := by
  unfold get_font_summary
  dsimp only
  rw [(sumStep_fold dist ⟨0, 0, [], []⟩).1]
  simp

theorem summary_maths (dist : List FSNode) :
    (get_font_summary dist).math_fonts = mathList dist := by
  unfold get_font_summary
  dsimp only
  rw [(sumStep_fold dist ⟨0, 0, [], []⟩).2.1]
  rfl

theorem summary_families (dist : List FSNode) :
    (get_font_summary dist).font_families = famList dist := by
  unfold get_font_summary
  dsimp only
  rw [(sumStep_fold dist ⟨0, 0, [], []⟩).2.2]
  rfl

/-- Claim C7 is false as stated on `distRounding` (one family, two
5243-byte fonts): the reported family size is 0.01 MB while the reported
per-file sizes are 0.01 MB each, so the sum of reported per-file sizes
(0.02) differs from the sum of reported per-family sizes (0.01). -/
theorem c7_counterexample :
    ¬((get_font_summary distRounding).total_size_cents =
        famSumCents (get_font_summary distRounding) ∧
      famSumCents (get_font_summary distRounding) =
        fileSumCents (get_font_summary distRounding)) := by
  decide

/-- Claim C7 (amended): the reported total size is the single rounding of
the exact sum of the per-file sizes (equivalently, of the unrounded
per-family sums); the sums of the already-rounded per-family or per-file
figures need not agree with it, since rounding does not distribute over
addition. -/
theorem c7_amended_total_size (dist : List FSNode) :
    (get_font_summary dist).total_size_cents = round2cents (distWoffBytes dist) :=
  summary_total dist

/-! ## Lemmas: math-font classification -/

theorem mem_woff2Files (cs : List FSNode) (fn : String) (sz : Nat)
    (hf : FSNode.file fn sz ∈ cs) (hw : endsWithB fn ".woff2" = true) :
    (fn, sz) ∈ woff2Files cs := by
  induction cs with
  | nil => cases hf
  | cons c cs ih =>
    rcases List.mem_cons.mp hf with heq | hmem
    · rw [← heq]
      simp [woff2Files, hw]
    · cases c with
      | file n s => simp [woff2Files]; split <;> simp [ih hmem]
      | dir n s => simpa [woff2Files] using ih hmem

theorem woff2Files_sub (cs : List FSNode) (f : String × Nat) (hf : f ∈ woff2Files cs) :
    f.1 ∈ cs.map nodeName := by
  induction cs with
  | nil => cases hf
  | cons c cs ih =>
    cases c with
    | file n s =>
      rcases hsp : endsWithB n ".woff2" with _ | _
      · simp only [woff2Files, hsp, Bool.false_eq_true, if_false] at hf
        simp [ih hf]
      · simp only [woff2Files, hsp, if_true] at hf
        rcases List.mem_cons.mp hf with heq | hmem
        · subst heq
          simp [nodeName]
        · simp [ih hmem]
    | dir n s =>
      simp only [woff2Files] at hf
      simp [ih hf]

theorem mem_mathList (dist : List FSNode) (x : String) :
    x ∈ mathList dist ↔
      ∃ nm cs', FSNode.dir nm cs' ∈ dist ∧
        ∃ f ∈ woff2Files cs', hasMath f.1 = true ∧ x = nm ++ "/" ++ f.1 := by
  induction dist with
  | nil => simp [mathList]
  | cons c cs ih =>
    cases c with
    | file n s =>
      simp only [mathList, ih]
      constructor
      · rintro ⟨nm, cs', hmem, rest⟩
        exact ⟨nm, cs', List.mem_cons_of_mem _ hmem, rest⟩
      · rintro ⟨nm, cs', hmem, rest⟩
        rcases List.mem_cons.mp hmem with heq | hmem'
        · cases heq
        · exact ⟨nm, cs', hmem', rest⟩
    | dir nm0 cs0 =>
      simp only [mathList, List.mem_append, ih, List.mem_filterMap]
      constructor
      · rintro (⟨f, hf, hx⟩ | ⟨nm, cs', hmem, rest⟩)
        · rcases hm : hasMath f.1 with _ | _
          · rw [hm] at hx; cases hx
          · rw [hm] at hx
            simp only [if_true] at hx
            exact ⟨nm0, cs0, List.mem_cons_self _ _, f, hf, hm, (Option.some.injEq _ _ ▸ hx).symm⟩
        · exact ⟨nm, cs', List.mem_cons_of_mem _ hmem, rest⟩
      · rintro ⟨nm, cs', hmem, f, hf, hm, hx⟩
        rcases List.mem_cons.mp hmem with heq | hmem'
        · obtain ⟨rfl, rfl⟩ := FSNode.dir.inj heq.symm
          exact Or.inl ⟨f, hf, by simp [hm, hx]⟩
        · exact Or.inr ⟨nm, cs', hmem', f, hf, hm, hx⟩

theorem namesSF_mem (cs : List FSNode) (n : String) (h : namesSF cs = true)
    (hm : n ∈ cs.map nodeName) : slashFreeStr n = true := by
  induction cs with
  | nil => cases hm
  | cons c cs ih =>
    simp only [namesSF, Bool.and_eq_true] at h
    rcases List.mem_cons.mp hm with heq | hmem
    · exact heq ▸ h.1
    · exact ih h.2 hmem

theorem slashFreeTop_dir (dist : List FSNode) (nm : String) (cs' : List FSNode)
    (h : slashFreeTop dist = true) (hd : FSNode.dir nm cs' ∈ dist) :
    slashFreeStr nm = true ∧ namesSF cs' = true := by
  induction dist with
  | nil => cases hd
  | cons c cs ih =>
    rcases List.mem_cons.mp hd with heq | hmem
    · rw [← heq] at h
      simp only [slashFreeTop, Bool.and_eq_true] at h
      exact ⟨h.1.1, h.1.2⟩
    · cases c with
      | file n s => exact ih (by simpa [slashFreeTop] using h) hmem
      | dir n s =>
        simp only [slashFreeTop, Bool.and_eq_true] at h
        exact ih h.2 hmem

theorem slash_append_inj (a : List Char) :
    ∀ (c b d : List Char), (∀ ch ∈ a, (ch == '/') = false) → (∀ ch ∈ c, (ch == '/') = false) →
      a ++ '/' :: b = c ++ '/' :: d → a = c ∧ b = d := by
  induction a with
  | nil =>
    intro c b d _ hc h
    cases c with
    | nil => simpa using h
    | cons ch c' =>
      simp only [List.nil_append, List.cons_append, List.cons.injEq] at h
      have := hc ch (List.mem_cons_self _ _)
      rw [← h.1] at this
      simp at this
  | cons ch a' ih =>
    intro c b d ha hc h
    cases c with
    | nil =>
      simp only [List.cons_append, List.nil_append, List.cons.injEq] at h
      have := ha ch (List.mem_cons_self _ _)
      rw [h.1] at this
      simp at this
    | cons ch2 c' =>
      simp only [List.cons_append, List.cons.injEq] at h
      obtain ⟨h1, h2⟩ := h
      obtain ⟨hac, hbd⟩ := ih c' b d (fun x hx => ha x (List.mem_cons_of_mem _ hx))
        (fun x hx => hc x (List.mem_cons_of_mem _ hx)) h2
      exact ⟨by rw [h1, hac], hbd⟩

theorem slashFreeStr_chars (s : String) (h : slashFreeStr s = true) :
    ∀ ch ∈ s.data, (ch == '/') = false := by
  intro ch hch
  have := List.all_eq_true.mp h ch hch
  simpa using this

theorem joinSlash_inj (nm f fam fn : String) (h1 : slashFreeStr nm = true)
    (h2 : slashFreeStr fam = true) (h : nm ++ "/" ++ f = fam ++ "/" ++ fn) :
    nm = fam ∧ f = fn := by
  have hd : nm.data ++ '/' :: f.data = fam.data ++ '/' :: fn.data := by
    have := congrArg String.data h
    simpa [String.data_append, List.append_assoc] using this
  obtain ⟨ha, hb⟩ := slash_append_inj nm.data fam.data f.data fn.data
    (slashFreeStr_chars nm h1) (slashFreeStr_chars fam h2) hd
  exact ⟨String.ext ha, String.ext hb⟩

/-! ## Lemmas: substring containment -/

theorem isPrefixB_iff (n : List Char) : ∀ h : List Char,
    (isPrefixB n h = true ↔ ∃ t, h = n ++ t) := by
  induction n with
  | nil => intro h; simp [isPrefixB]
  | cons c n' ih =>
    intro h
    cases h with
    | nil => simp [isPrefixB]
    | cons d h' =>
      simp only [isPrefixB, Bool.and_eq_true, beq_iff_eq, ih h']
      constructor
      · rintro ⟨rfl, t, rfl⟩
        exact ⟨t, rfl⟩
      · rintro ⟨t, ht⟩
        simp only [List.cons_append, List.cons.injEq] at ht
        exact ⟨ht.1.symm, t, ht.2⟩

theorem isSubstrB_iff (n : List Char) : ∀ h : List Char,
    (isSubstrB n h = true ↔ ∃ a b, h = a ++ n ++ b) := by
  intro h
  induction h with
  | nil =>
    simp only [isSubstrB, List.isEmpty_iff]
    constructor
    · rintro rfl
      exact ⟨[], [], rfl⟩
    · rintro ⟨a, b, hab⟩
      rcases List.append_eq_nil.mp (List.append_eq_nil.mp hab.symm).1 with ⟨-, h2⟩
      exact h2
  | cons c rest ih =>
    simp only [isSubstrB, Bool.or_eq_true, isPrefixB_iff, ih]
    constructor
    · rintro (⟨t, ht⟩ | ⟨a, b, hab⟩)
      · exact ⟨[], t, by simpa using ht⟩
      · exact ⟨c :: a, b, by simp [hab]⟩
    · rintro ⟨a, b, hab⟩
      cases a with
      | nil =>
        exact Or.inl ⟨b, by simpa using hab⟩
      | cons d a' =>
        simp only [List.cons_append, List.cons.injEq] at hab
        exact Or.inr ⟨a', b, hab.2⟩

theorem hasMath_iff (s : String) : hasMath s = true ↔ containsMathCI s := by
  rw [hasMath, isSubstrB_iff, containsMathCI]
  constructor
  · rintro ⟨a, b, hab⟩
    rw [toLowerList] at hab
    rw [List.append_assoc] at hab
    obtain ⟨l1, l2, hsplit, hmap1, hmap2⟩ := List.map_eq_append_iff.mp hab
    obtain ⟨l21, l22, hsplit2, hmap21, hmap22⟩ := List.map_eq_append_iff.mp hmap2
    refine ⟨l1, l21, l22, ?_, ?_⟩
    · rw [hsplit, hsplit2, List.append_assoc]
    · rw [toLowerList, hmap21]
  · rintro ⟨pre, mid, post, hsplit, hmid⟩
    refine ⟨toLowerList pre, toLowerList post, ?_⟩
    rw [toLowerList, hsplit]
    simp only [List.map_append]
    have hm4 : List.map toLowerChar mid = ['m', 'a', 't', 'h'] := by
      rw [show (['m', 'a', 't', 'h'] : List Char) = "math".data from rfl, ← hmid]
      rfl
    rw [hm4]
    simp [toLowerList, List.append_assoc]

/-- Claim C6: a `.woff2` file in a family subdirectory of an existing
snapshot is listed among the math fonts exactly when its name contains the
substring `'math'` case-insensitively.  (The slash-freedom hypothesis holds
for every real directory: entry names never contain `'/'`.) -/
theorem c6_math_iff (dist : List FSNode) (fam : String) (cs : List FSNode)
    (fn : String) (sz : Nat)
    (hsf : slashFreeTop dist = true)
    (hd : FSNode.dir fam cs ∈ dist)
    (hf : FSNode.file fn sz ∈ cs)
    (hw : endsWithB fn ".woff2" = true) :
    ((fam ++ "/" ++ fn) ∈ (get_font_summary dist).math_fonts ↔ containsMathCI fn) := by
  rw [summary_maths, mem_mathList]
  constructor
  · rintro ⟨nm, cs', hmem, f, hfmem, hm, hx⟩
    have hnm := (slashFreeTop_dir dist nm cs' hsf hmem).1
    have hfamSF := (slashFreeTop_dir dist fam cs hsf hd).1
    obtain ⟨-, hfn⟩ := joinSlash_inj nm f.1 fam fn hnm hfamSF hx.symm
    rw [← hfn, ← hasMath_iff]
    exact hm
  · intro hci
    refine ⟨fam, cs, hd, (fn, sz), mem_woff2Files cs fn sz hf hw, ?_, rfl⟩
    exact (hasMath_iff fn).mpr hci

theorem c6_math_iff_witness :
    (("A" ++ "/" ++ "B-Math.woff2") ∈
        (get_font_summary [FSNode.dir "A"
          [FSNode.file "a.woff2" 5243, FSNode.file "B-Math.woff2" 5243]]).math_fonts ↔
      containsMathCI "B-Math.woff2") :=
  c6_math_iff [FSNode.dir "A" [FSNode.file "a.woff2" 5243, FSNode.file "B-Math.woff2" 5243]]
    "A" [FSNode.file "a.woff2" 5243, FSNode.file "B-Math.woff2" 5243]
    "B-Math.woff2" 5243 (by decide) (by simp) (by simp) (by decide)

/-! ## Lemmas: archive contents -/

theorem perm_middle_swap {α : Type} (A M B : List α) :
    (A ++ (M ++ B)).Perm (M ++ (A ++ B)) := by
  have h1 : A ++ (M ++ B) = (A ++ M) ++ B := (List.append_assoc A M B).symm
  have h2 : ((A ++ M) ++ B).Perm ((M ++ A) ++ B) := List.perm_append_comm.append_right B
  rw [h1, ← List.append_assoc M A B]
  exact h2

theorem walkFiles_perm_relPaths : ∀ cs : List FSNode, (walkFiles cs).Perm (relPaths cs)
  | [] => by simp [walkFiles, filesHere, dirsWalk, relPaths]
  | .file n s :: cs => by
    have ih := walkFiles_perm_relPaths cs
    simp only [walkFiles, filesHere, dirsWalk, relPaths, List.cons_append]
    exact ih.cons [n]
  | .dir n cs' :: cs => by
    have ih : (walkFiles cs).Perm (relPaths cs) := walkFiles_perm_relPaths cs
    have ih' : (walkFiles cs').Perm (relPaths cs') := walkFiles_perm_relPaths cs'
    simp only [walkFiles, filesHere, dirsWalk, relPaths]
    refine (perm_middle_swap (filesHere cs) ((filesHere cs' ++ dirsWalk cs').map (n :: ·))
      (dirsWalk cs)).trans ?_
    exact (ih'.map (n :: ·)).append ih

theorem tarAdd_files : ∀ (cs : List FSNode) (pre : List String),
    (tarAddList pre cs).filterMap (fun m => if m.2 then none else some m.1) =
      (relPaths cs).map (fun p => pre ++ p)
  | [], pre => by simp [tarAddList, relPaths]
  | .file n s :: cs, pre => by
    have ih := tarAdd_files cs pre
    simp [tarAddList, relPaths, ih]
  | .dir n cs' :: cs, pre => by
    have ih := tarAdd_files cs pre
    have ih' := tarAdd_files cs' (pre ++ [n])
    simp only [tarAddList, relPaths, List.filterMap_cons, if_true, List.filterMap_append,
      ih, ih', List.map_append, List.map_map]
    congr 1
    apply List.map_congr_left
    intro p _
    simp [Function.comp, List.append_assoc]

theorem tarFilePaths_eq (dist : List FSNode) (v : String) :
    tarFilePaths dist v = (relPaths dist).map (fun p => rootName v :: p) := by
  unfold tarFilePaths tarMembers
  rw [List.filterMap_cons]
  simp only [if_true]
  rw [tarAdd_files dist [rootName v]]
  apply List.map_congr_left
  intro p _
  rfl

theorem memStr_iff (s : String) : ∀ l : List String, (memStr s l = true ↔ s ∈ l) := by
  intro l
  induction l with
  | nil => simp [memStr]
  | cons t r ih =>
    simp only [memStr, Bool.or_eq_true, beq_iff_eq, ih, List.mem_cons]
    constructor
    · rintro (rfl | h)
      · exact Or.inl rfl
      · exact Or.inr h
    · rintro (rfl | h)
      · exact Or.inl rfl
      · exact Or.inr h

theorem relPaths_head : ∀ cs : List FSNode, ∀ p ∈ relPaths cs,
    ∃ nm q, p = nm :: q ∧ nm ∈ cs.map nodeName
  | [] => by simp [relPaths]
  | .file n s :: cs => by
    intro p hp
    simp only [relPaths] at hp
    rcases List.mem_cons.mp hp with heq | hmem
    · exact ⟨n, [], heq, by simp [nodeName]⟩
    · obtain ⟨nm, q, h1, h2⟩ := relPaths_head cs p hmem
      exact ⟨nm, q, h1, by simp [h2]⟩
  | .dir n cs' :: cs => by
    intro p hp
    simp only [relPaths] at hp
    rcases List.mem_append.mp hp with hmem | hmem
    · obtain ⟨q, -, rfl⟩ := List.mem_map.mp hmem
      exact ⟨n, q, rfl, by simp [nodeName]⟩
    · obtain ⟨nm, q, h1, h2⟩ := relPaths_head cs p hmem
      exact ⟨nm, q, h1, by simp [h2]⟩

theorem cons_injective_str (n : String) :
    Function.Injective (fun p : List String => n :: p) := by
  intro a b hab
  simpa using hab

theorem relPaths_nodup : ∀ cs : List FSNode, wfList cs = true → (relPaths cs).Nodup
  | [] => by simp [relPaths]
  | .file n s :: cs => by
    intro h
    simp only [wfList, Bool.and_eq_true, Bool.not_eq_true'] at h
    have ih := relPaths_nodup cs h.2
    simp only [relPaths, List.nodup_cons]
    refine ⟨?_, ih⟩
    intro hmem
    obtain ⟨nm, q, hpq, hnm⟩ := relPaths_head cs [n] hmem
    obtain ⟨rfl, -⟩ := List.cons.inj hpq
    exact absurd ((memStr_iff n _).mpr hnm) (by rw [h.1]; simp)
  | .dir n cs' :: cs => by
    intro h
    simp only [wfList, Bool.and_eq_true, Bool.not_eq_true'] at h
    have ih := relPaths_nodup cs h.2
    have ih' := relPaths_nodup cs' h.1.2
    simp only [relPaths]
    refine List.Nodup.append (ih'.map (cons_injective_str n)) ih ?_
    intro p hp1 hp2
    obtain ⟨q, -, rfl⟩ := List.mem_map.mp hp1
    obtain ⟨nm, q', hpq, hnm⟩ := relPaths_head cs (n :: q) hp2
    obtain ⟨rfl, -⟩ := List.cons.inj hpq
    exact absurd ((memStr_iff n _).mpr hnm) (by rw [h.1.1]; simp)

/-- Claim C8: for every well-formed snapshot (distinct sibling names, as a
real filesystem guarantees), the zip archive's members are exactly the
regular files under the build-output directory, each exactly once, with
the path prefixed by the versioned root directory name; and the regular
files of the tar.gz archive are the same set (the tar additionally stores
directory entries, which are not files). -/
theorem c8_archive_contents (dist : List FSNode) (v : String) (hwf : wfList dist = true) :
    (zipEntries dist v).Perm ((relPaths dist).map (fun p => rootName v :: p)) ∧
    (zipEntries dist v).Nodup ∧
    (zipEntries dist v).Perm (tarFilePaths dist v) := by
  have hperm : ((walkFiles dist).map (fun p => rootName v :: p)).Perm
      ((relPaths dist).map (fun p => rootName v :: p)) :=
    (walkFiles_perm_relPaths dist).map _
  refine ⟨hperm, ?_, ?_⟩
  · exact hperm.symm.nodup ((relPaths_nodup dist hwf).map (cons_injective_str (rootName v)))
  · rw [tarFilePaths_eq]
    exact hperm

theorem c8_archive_contents_witness :
    (zipEntries distSmall "v1.2.3").Perm
      ((relPaths distSmall).map (fun p => rootName "v1.2.3" :: p)) ∧
    (zipEntries distSmall "v1.2.3").Nodup ∧
    (zipEntries distSmall "v1.2.3").Perm (tarFilePaths distSmall "v1.2.3") :=
  c8_archive_contents distSmall "v1.2.3"
    (by simp [distSmall, wfList, memStr, nodeName])

/-! ## Dry-run behaviour -/

/-- Claim C5 assessment.  The intended dry-run guarantee — no archive
writes, no network requests, no subprocess executions, while all steps
still log — breaks on the default path: with no `--version`, the dry-run
stub of `run_command` returns `stdout=b''` (a `bytes`), and
`increment_version` then raises `TypeError` from `b''.lstrip('v')`, so the
run aborts before the build/archive/publish steps emit any log.  With an
explicit version the dry run does traverse every step, logging them, and
indeed performs no execution, network request or archive write. -/
theorem c5_dry_run_behaviour :
    (release envDryAuto none).1 = .ok false ∧
    (release envDryAuto none).2 =
      [Event.log "INFO" "Running: git describe --tags --abbrev=0",
       Event.log "ERROR" ("Release failed: " ++ excMsg .typeError)] ∧
    Event.log "INFO" "Building fonts..." ∉ (release envDryAuto none).2 ∧
    ((release envDryAuto none).2.all noEffects) = true ∧
    (release envDryAuto (some "v9.9.9")).1 = .ok true ∧
    ((release envDryAuto (some "v9.9.9")).2.all noEffects) = true ∧
    Event.log "INFO" "Building fonts..." ∈ (release envDryAuto (some "v9.9.9")).2 ∧
    Event.log "INFO" "Creating archives for version v9.9.9"
      ∈ (release envDryAuto (some "v9.9.9")).2 ∧
    Event.log "INFO" "Creating GitHub release v9.9.9"
      ∈ (release envDryAuto (some "v9.9.9")).2 ∧
    Event.log "INFO" "Creating git tag v9.9.9" ∈ (release envDryAuto (some "v9.9.9")).2 := by
  refine ⟨rfl, rfl, by decide, rfl, rfl, rfl, by decide, by decide, by decide, by decide⟩

/-! ## Success-path properties -/

/-- Claim C9: on a run that reaches the upload loop (token present, real
run, successful build, creation status 201), both archive uploads are
attempted whatever statuses the uploads return, the overall run still
succeeds, and a non-201 upload status is logged as an error for that
asset. -/
theorem c9_upload_failure_nonfatal (e : Env) (v tk : String)
    (h1 : e.githubToken = some tk) (h2 : e.dryRun = false) (h3 : e.describeRc = 0)
    (h4 : e.makefileExists = true) (h5 : e.cleanRc = 0) (h6 : e.buildRc = 0)
    (h7 : e.distExists = true) (h8 : e.createRaises = false) (h9 : e.createStatus = 201)
    (h10 : e.tagRc = 0) (h11 : e.pushRc = 0) (hv : v ≠ "") :
    (release e (some v)).1 = .ok true ∧
    Event.httpUploadAsset (basename ("tmp/mathfonts-" ++ String.mk (lstripV v.data) ++ ".zip"))
      ∈ (release e (some v)).2 ∧
    Event.httpUploadAsset (basename ("tmp/mathfonts-" ++ String.mk (lstripV v.data) ++ ".tar.gz"))
      ∈ (release e (some v)).2 ∧
    (∀ nm : String, e.uploadStatus nm ≠ 201 →
      nm = basename ("tmp/mathfonts-" ++ String.mk (lstripV v.data) ++ ".zip") ∨
        nm = basename ("tmp/mathfonts-" ++ String.mk (lstripV v.data) ++ ".tar.gz") →
      Event.log "ERROR" ("Failed to upload " ++ nm ++ ": " ++ natStr (e.uploadStatus nm))
        ∈ (release e (some v)).2) := by
  have hfv : versionFalsy (some v) = false := by
    simp only [versionFalsy]
    exact beq_eq_false_iff_ne.mpr hv
  refine ⟨?_, ?_, ?_, ?_⟩
  · simp only [release, releaseTry, resolveVersion, build_fonts, create_archives,
      create_github_release, get_current_version, run_command, create_git_tag,
      cleanup_archives, upload_release_asset, stripVal, hfv, Option.getD_some,
      Bool.false_eq_true, if_false, h1, h2, h3, h4, h5, h6, h7, h8, h9, h10, h11]
    simp
  · simp only [release, releaseTry, resolveVersion, build_fonts, create_archives,
      create_github_release, get_current_version, run_command, create_git_tag,
      cleanup_archives, upload_release_asset, stripVal, hfv, Option.getD_some,
      Bool.false_eq_true, if_false, h1, h2, h3, h4, h5, h6, h7, h8, h9, h10, h11]
    simp
  · simp only [release, releaseTry, resolveVersion, build_fonts, create_archives,
      create_github_release, get_current_version, run_command, create_git_tag,
      cleanup_archives, upload_release_asset, stripVal, hfv, Option.getD_some,
      Bool.false_eq_true, if_false, h1, h2, h3, h4, h5, h6, h7, h8, h9, h10, h11]
    simp
  · intro nm hnm hmem
    simp only [release, releaseTry, resolveVersion, build_fonts, create_archives,
      create_github_release, get_current_version, run_command, create_git_tag,
      cleanup_archives, upload_release_asset, stripVal, hfv, Option.getD_some,
      Bool.false_eq_true, if_false, h1, h2, h3, h4, h5, h6, h7, h8, h9, h10, h11]
    rcases hmem with rfl | rfl <;> simp [hnm]

theorem c9_upload_failure_nonfatal_witness :
    (release envUploadFail (some "v1.2.3")).1 = .ok true ∧
    Event.httpUploadAsset "mathfonts-1.2.3.zip" ∈ (release envUploadFail (some "v1.2.3")).2 ∧
    Event.httpUploadAsset "mathfonts-1.2.3.tar.gz" ∈ (release envUploadFail (some "v1.2.3")).2 ∧
    Event.log "ERROR" ("Failed to upload " ++ "mathfonts-1.2.3.zip" ++ ": " ++ natStr 500)
      ∈ (release envUploadFail (some "v1.2.3")).2 := by
  have h := c9_upload_failure_nonfatal envUploadFail "v1.2.3" "t"
    rfl rfl rfl rfl rfl rfl rfl rfl rfl rfl rfl (by decide)
  refine ⟨h.1, h.2.1, h.2.2.1, ?_⟩
  have hlog := h.2.2.2 "mathfonts-1.2.3.zip" (by decide) (Or.inl (by decide))
  exact hlog

/-- Claim C10 is false as stated at the empty version override: with
prior tag `v1.2.3`, running with `--version ""` does not use the supplied
string verbatim — `if not version:` (`release.py:321`) treats the empty
string as absent, the version auto-increments to `v1.2.4`, and the tag
command and release creation carry `v1.2.4`, not the supplied `""`. -/
theorem c10_counterexample :
    Event.httpCreateRelease "" ("MathFonts " ++ "") ∉ (release envUploadFail (some "")).2 ∧
    Event.execCmd ["git", "tag", "-a", "", "-m", "Release " ++ ""]
      ∉ (release envUploadFail (some "")).2 ∧
    Event.httpCreateRelease "v1.2.4" ("MathFonts " ++ "v1.2.4")
      ∈ (release envUploadFail (some "")).2 ∧
    Event.execCmd ["git", "tag", "-a", "v1.2.4", "-m", "Release " ++ "v1.2.4"]
      ∈ (release envUploadFail (some "")).2 :=
  ⟨by decide, by decide, by decide, by decide⟩

/-- Claim C10 (amended): an explicitly supplied *non-empty* version
string is used verbatim — whatever its shape — as the git tag name (in
both the `git tag` and `git push` commands), as the release `tag_name`,
and in the release title `MathFonts {version}`, while the archive file
names use the version with all leading `'v'` characters stripped.  No
well-formedness validation is applied anywhere on this path.  The one
exception, forced by `if not version:` (`release.py:321`), is the empty
string: it is falsy, so it triggers the auto-increment path instead of
being used verbatim (see the counterexample). -/
theorem c10_version_override_verbatim (e : Env) (v tk : String)
    (h1 : e.githubToken = some tk) (h2 : e.dryRun = false) (h3 : e.describeRc = 0)
    (h4 : e.makefileExists = true) (h5 : e.cleanRc = 0) (h6 : e.buildRc = 0)
    (h7 : e.distExists = true) (h8 : e.createRaises = false) (h9 : e.createStatus = 201)
    (h10 : e.tagRc = 0) (h11 : e.pushRc = 0) (hv : v ≠ "") :
    Event.execCmd ["git", "tag", "-a", v, "-m", "Release " ++ v] ∈ (release e (some v)).2 ∧
    Event.execCmd ["git", "push", "origin", v] ∈ (release e (some v)).2 ∧
    Event.httpCreateRelease v ("MathFonts " ++ v) ∈ (release e (some v)).2 ∧
    Event.writeZip ("tmp/mathfonts-" ++ String.mk (lstripV v.data) ++ ".zip")
      (zipEntries e.dist v) ∈ (release e (some v)).2 ∧
    Event.writeTar ("tmp/mathfonts-" ++ String.mk (lstripV v.data) ++ ".tar.gz")
      (tarMembers e.dist v) ∈ (release e (some v)).2 := by
  have hfv : versionFalsy (some v) = false := by
    simp only [versionFalsy]
    exact beq_eq_false_iff_ne.mpr hv
  refine ⟨?_, ?_, ?_, ?_, ?_⟩ <;>
  · simp only [release, releaseTry, resolveVersion, build_fonts, create_archives,
      create_github_release, get_current_version, run_command, create_git_tag,
      cleanup_archives, upload_release_asset, stripVal, hfv, Option.getD_some,
      Bool.false_eq_true, if_false, h1, h2, h3, h4, h5, h6, h7, h8, h9, h10, h11]
    simp

theorem c10_version_override_verbatim_witness :
    Event.execCmd ["git", "tag", "-a", "vv1..x!", "-m", "Release " ++ "vv1..x!"]
      ∈ (release envUploadFail (some "vv1..x!")).2 ∧
    Event.execCmd ["git", "push", "origin", "vv1..x!"] ∈ (release envUploadFail (some "vv1..x!")).2 ∧
    Event.httpCreateRelease "vv1..x!" ("MathFonts " ++ "vv1..x!")
      ∈ (release envUploadFail (some "vv1..x!")).2 ∧
    Event.writeZip ("tmp/mathfonts-" ++ String.mk (lstripV "vv1..x!".data) ++ ".zip")
      (zipEntries envUploadFail.dist "vv1..x!") ∈ (release envUploadFail (some "vv1..x!")).2 ∧
    Event.writeTar ("tmp/mathfonts-" ++ String.mk (lstripV "vv1..x!".data) ++ ".tar.gz")
      (tarMembers envUploadFail.dist "vv1..x!") ∈ (release envUploadFail (some "vv1..x!")).2 :=
  c10_version_override_verbatim envUploadFail "vv1..x!" "t"
    rfl rfl rfl rfl rfl rfl rfl rfl rfl rfl rfl (by decide)

/-! ## Guaranteed cleanup (claim C4) -/

/-- Claim C4: whenever the `try` body reached the point where
`create_archives` returned (the local `archives` was assigned), the
`finally` block appends the `cleanup_archives` events to the trace on
every exit path — normal return, `return False`, a caught exception, or a
`SystemExit` from a failed later command — and in a real (non-dry) run
both archive files are deleted. -/
theorem c4_cleanup_always (e : Env) (v0 : Option String) (a : Archives)
    (h : (releaseTry e v0).2.1 = some a) :
    (∃ pre, (release e v0).2 = pre ++ cleanup_archives e a) ∧
    (e.dryRun = false →
      Event.deleteFile a.zipPath ∈ (release e v0).2 ∧
      Event.deleteFile a.tarPath ∈ (release e v0).2) := by
  have hform : ∃ pre, (release e v0).2 = pre ++ cleanup_archives e a := by
    rcases hr : releaseTry e v0 with ⟨r, aopt, evs⟩
    rw [hr] at h
    replace h : aopt = some a := h
    subst h
    simp only [release, hr]
    cases r with
    | ok b => exact ⟨evs, rfl⟩
    | error hh =>
      cases hh with
      | exit c => exact ⟨evs, rfl⟩
      | exc ex => exact ⟨evs ++ [Event.log "ERROR" ("Release failed: " ++ excMsg ex)], rfl⟩
  refine ⟨hform, ?_⟩
  intro hdry
  obtain ⟨pre, hpre⟩ := hform
  rw [hpre]
  unfold cleanup_archives
  rw [hdry]
  constructor <;> simp

theorem c4_cleanup_always_witness :
    (∃ pre, (release envTagFail (some "v1.2.3")).2 =
      pre ++ cleanup_archives envTagFail
        ⟨"tmp/mathfonts-1.2.3.zip", "tmp/mathfonts-1.2.3.tar.gz"⟩) ∧
    (envTagFail.dryRun = false →
      Event.deleteFile "tmp/mathfonts-1.2.3.zip" ∈ (release envTagFail (some "v1.2.3")).2 ∧
      Event.deleteFile "tmp/mathfonts-1.2.3.tar.gz" ∈ (release envTagFail (some "v1.2.3")).2) :=
  c4_cleanup_always envTagFail (some "v1.2.3")
    ⟨"tmp/mathfonts-1.2.3.zip", "tmp/mathfonts-1.2.3.tar.gz"⟩ rfl

/-! ## No uploads or tagging after a failed release creation (claim C3) -/

theorem noUT_log (lvl msg : String) : noUploadNoTag (.log lvl msg) = true := rfl

theorem noUT_mkdir (p : String) : noUploadNoTag (.mkdirP p) = true := rfl

theorem noUT_writeZip (p : String) (en : List (List String)) :
    noUploadNoTag (.writeZip p en) = true := rfl

theorem noUT_writeTar (p : String) (en : List (List String × Bool)) :
    noUploadNoTag (.writeTar p en) = true := rfl

theorem noUT_http (t ti : String) : noUploadNoTag (.httpCreateRelease t ti) = true := rfl

theorem noUT_delete (p : String) : noUploadNoTag (.deleteFile p) = true := rfl

theorem noUT_exec (c : List String) (hc : Event.isTagPushExec (.execCmd c) = false) :
    noUploadNoTag (.execCmd c) = true := by
  simp [noUploadNoTag, Event.isUpload, hc]

theorem run_command_c3 (e : Env) (c : List String) (rc : Nat) (o : String)
    (hc : Event.isTagPushExec (.execCmd c) = false) :
    ((run_command e c rc o).2.all noUploadNoTag) = true ∧
    (∀ h : Halt, (run_command e c rc o).1 = .error h → h = .exit 1) := by
  unfold run_command
  split
  · exact ⟨by simp [noUT_log], fun h hh => by simp at hh⟩
  · split
    · refine ⟨?_, ?_⟩
      · simp [List.all_cons, noUT_log, noUT_exec c hc]
      · intro h hh
        simp only [Except.error.injEq] at hh
        exact hh.symm
    · refine ⟨?_, ?_⟩
      · simp [List.all_cons, noUT_log, noUT_exec c hc]
      · intro h hh
        simp at hh

theorem get_current_version_c3 (e : Env) :
    ((get_current_version e).2.all noUploadNoTag) = true ∧
    (∀ h : Halt, (get_current_version e).1 = .error h → h = .exit 1) := by
  obtain ⟨ha, hb⟩ := run_command_c3 e ["git", "describe", "--tags", "--abbrev=0"]
    e.describeRc e.describeOut rfl
  unfold get_current_version
  rcases hr : (run_command e ["git", "describe", "--tags", "--abbrev=0"]
      e.describeRc e.describeOut) with ⟨res, evs⟩
  rw [hr] at ha hb
  cases res with
  | error h => exact ⟨ha, fun h' hh' => hb h' (by simpa using hh')⟩
  | ok v => exact ⟨ha, fun h' hh' => by simp at hh'⟩

theorem build_fonts_c3 (e : Env) :
    ((build_fonts e).2.all noUploadNoTag) = true ∧
    (∀ h : Halt, (build_fonts e).1 = .error h → h = .exit 1) := by
  obtain ⟨ha1, hb1⟩ := run_command_c3 e ["make", "clean"] e.cleanRc "" rfl
  obtain ⟨ha2, hb2⟩ := run_command_c3 e ["make", "all-parallel"] e.buildRc "" rfl
  unfold build_fonts
  split
  · refine ⟨by simp [List.all_cons, noUT_log], ?_⟩
    intro h hh
    simp only [Except.error.injEq] at hh
    exact hh.symm
  · rcases hr1 : run_command e ["make", "clean"] e.cleanRc "" with ⟨res1, evs1⟩
    rw [hr1] at ha1 hb1
    cases res1 with
    | error h1 =>
      refine ⟨by simp [List.all_cons, ha1, noUT_log], ?_⟩
      intro h hh
      simp only [Except.error.injEq] at hh
      exact hh ▸ hb1 h1 rfl
    | ok u1 =>
      rcases hr2 : run_command e ["make", "all-parallel"] e.buildRc "" with ⟨res2, evs2⟩
      rw [hr2] at ha2 hb2
      cases res2 with
      | error h2 =>
        refine ⟨by simp [List.all_cons, List.all_append, ha1, ha2, noUT_log], ?_⟩
        intro h hh
        simp only [Except.error.injEq] at hh
        exact hh ▸ hb2 h2 rfl
      | ok u2 =>
        split
        · refine ⟨by simp [List.all_cons, List.all_append, ha1, ha2, noUT_log], ?_⟩
          intro h hh
          simp only [Except.error.injEq] at hh
          exact hh.symm
        · refine ⟨by simp [List.all_cons, List.all_append, ha1, ha2, noUT_log], ?_⟩
          intro h hh
          simp at hh

theorem create_archives_c3 (e : Env) (v : String) :
    ((create_archives e v).2.all noUploadNoTag) = true := by
  unfold create_archives
  rcases hd : e.dryRun <;>
    simp [hd, List.all_cons, List.all_append, noUT_log, noUT_mkdir, noUT_writeZip, noUT_writeTar]

theorem resolveVersion_c3 (e : Env) (v0 : Option String) :
    ((resolveVersion e v0).2.all noUploadNoTag) = true ∧
    (∀ c : Nat, (resolveVersion e v0).1 = .error (.exit c) → c = 1) := by
  rcases hf : versionFalsy v0 with _ | _
  case false =>
    simp only [resolveVersion, hf, Bool.false_eq_true, if_false]
    exact ⟨rfl, fun c hh => by simp at hh⟩
  case true =>
    obtain ⟨ha, hb⟩ := get_current_version_c3 e
    simp only [resolveVersion, hf, if_true]
    rcases hres : (get_current_version e).1 with h | cur
    · simp only [hres]
      refine ⟨ha, ?_⟩
      intro c hh
      simp only [Except.error.injEq] at hh
      have h1 := hb h hres
      rw [h1] at hh
      exact (Halt.exit.inj hh).symm
    · simp only [hres]
      rcases hi : increment_version cur "patch" with ex | v
      · simp only [hi]
        exact ⟨ha, fun c hh => by simp at hh⟩
      · simp only [hi]
        exact ⟨ha, fun c hh => by simp at hh⟩

theorem create_github_release_c3 (e : Env) (v : String) (a : Archives)
    (hp : e.githubToken = none ∨ (e.dryRun = false ∧ e.createStatus ≠ 201 ∧ e.createRaises = false)) :
    (create_github_release e v a).1 ≠ .ok true ∧
    ((create_github_release e v a).2.all noUploadNoTag) = true ∧
    (∀ c : Nat, (create_github_release e v a).1 = .error (.exit c) → c = 1) := by
  cases htok : e.githubToken with
  | none =>
    simp only [create_github_release, htok]
    exact ⟨by simp, by simp [noUT_log], fun c hh => by simp at hh⟩
  | some tk =>
    rcases hp with hp | ⟨hdry, hst, hraise⟩
    · rw [htok] at hp
      cases hp
    · obtain ⟨ha, hb⟩ := get_current_version_c3 e
      simp only [create_github_release, htok]
      rcases hres : (get_current_version e).1 with h | prev
      · simp only [hres]
        refine ⟨by simp, ha, ?_⟩
        intro c hh
        simp only [Except.error.injEq] at hh
        have h1 := hb h hres
        rw [h1] at hh
        exact (Halt.exit.inj hh).symm
      · simp only [hres, hdry, hraise, Bool.false_eq_true, if_false]
        rw [if_pos hst]
        refine ⟨by simp, ?_, fun c hh => by simp at hh⟩
        simp [List.all_cons, List.all_append, ha, noUT_log, noUT_http]

theorem cleanup_archives_c3 (e : Env) (a : Archives) :
    ((cleanup_archives e a).all noUploadNoTag) = true := by
  unfold cleanup_archives
  rcases hd : e.dryRun <;> simp [List.all_cons, noUT_log, noUT_delete]

theorem releaseTry_c3 (e : Env) (v0 : Option String)
    (hp : e.githubToken = none ∨ (e.dryRun = false ∧ e.createStatus ≠ 201 ∧ e.createRaises = false)) :
    (releaseTry e v0).1 ≠ .ok true ∧
    ((releaseTry e v0).2.2.all noUploadNoTag) = true ∧
    (∀ c : Nat, (releaseTry e v0).1 = .error (.exit c) → c = 1) := by
  obtain ⟨hrva, hrvb⟩ := resolveVersion_c3 e v0
  rcases hR : resolveVersion e v0 with ⟨r0, evs0⟩
  rw [hR] at hrva hrvb
  cases r0 with
  | error h =>
    simp only [releaseTry, hR]
    refine ⟨by simp, hrva, ?_⟩
    intro c hh
    simp only [Except.error.injEq] at hh
    exact hrvb c (by rw [hh])
  | ok version =>
    obtain ⟨hba, hbb⟩ := build_fonts_c3 e
    rcases hB : build_fonts e with ⟨rb, evsB⟩
    rw [hB] at hba hbb
    cases rb with
    | error h =>
      simp only [releaseTry, hR, hB]
      refine ⟨by simp, ?_, ?_⟩
      · simp [List.all_append, List.all_cons, hrva, hba, noUT_log]
      · intro c hh
        simp only [Except.error.injEq] at hh
        have := hbb h rfl
        rw [this] at hh
        exact (Halt.exit.inj hh).symm
    | ok u =>
      obtain ⟨hca, hcb, hcc⟩ := create_github_release_c3 e version (create_archives e version).1 hp
      have harch := create_archives_c3 e version
      rcases hC : create_github_release e version (create_archives e version).1 with ⟨rc2, evsC⟩
      rw [hC] at hca hcb hcc
      cases rc2 with
      | error h =>
        simp only [releaseTry, hR, hB, hC]
        refine ⟨by simp, ?_, ?_⟩
        · simp [List.all_append, List.all_cons, hrva, hba, harch, hcb, noUT_log]
        · intro c hh
          simp only [Except.error.injEq] at hh
          exact hcc c (by rw [hh])
      | ok success =>
        cases success with
        | true => exact absurd rfl hca
        | false =>
          simp only [releaseTry, hR, hB, hC]
          refine ⟨by simp, ?_, ?_⟩
          · simp [List.all_append, List.all_cons, hrva, hba, harch, hcb, noUT_log]
          · intro c hh
            simp at hh

/-- Claim C3: whenever release creation fails — the token is missing, or
the create request (actually issued, i.e. not in dry-run) returns a
non-201 status — no asset upload request is made, no `git tag` or
`git push` is executed, and the run reports failure (process exit code 1,
whichever earlier step may also have failed). -/
theorem c3_create_failure_no_side_effects (e : Env) (v0 : Option String)
    (hp : e.githubToken = none ∨ (e.dryRun = false ∧ e.createStatus ≠ 201 ∧ e.createRaises = false)) :
    run_exit_code (release e v0).1 = 1 ∧
    ((release e v0).2.all noUploadNoTag) = true := by
  obtain ⟨h1, h2, h3⟩ := releaseTry_c3 e v0 hp
  rcases hT : releaseTry e v0 with ⟨r, aopt, evs⟩
  rw [hT] at h1 h2 h3
  have hcl : ∀ a : Archives, ((cleanup_archives e a).all noUploadNoTag) = true :=
    fun a => cleanup_archives_c3 e a
  cases r with
  | ok b =>
    cases b with
    | true => exact absurd rfl h1
    | false =>
      cases aopt with
      | none =>
        simp only [release, hT]
        exact ⟨rfl, h2⟩
      | some a =>
        simp only [release, hT]
        exact ⟨rfl, by simp [List.all_append, h2, hcl a]⟩
  | error hh =>
    cases hh with
    | exit c =>
      have hc1 : c = 1 := h3 c rfl
      subst hc1
      cases aopt with
      | none =>
        simp only [release, hT]
        exact ⟨rfl, h2⟩
      | some a =>
        simp only [release, hT]
        exact ⟨rfl, by simp [List.all_append, h2, hcl a]⟩
    | exc ex =>
      cases aopt with
      | none =>
        simp only [release, hT]
        exact ⟨rfl, by simp [List.all_append, List.all_cons, h2, noUT_log]⟩
      | some a =>
        simp only [release, hT]
        exact ⟨rfl, by simp [List.all_append, List.all_cons, h2, noUT_log, hcl a]⟩

theorem c3_create_failure_no_side_effects_witness :
    run_exit_code (release envNoToken (some "v1.2.3")).1 = 1 ∧
    ((release envNoToken (some "v1.2.3")).2.all noUploadNoTag) = true :=
  c3_create_failure_no_side_effects envNoToken (some "v1.2.3") (Or.inl rfl)
